import Mathlib

/-!
Verification of the core logic of stockfilter_streamlit (app.py).

The file shallowly embeds the pure content of app.py:
  - filename/extension handling (os.listdir filtering, str.lower().endswith),
  - the YYYYMMDD date-token extraction used by list_rrg_gifs_sorted
    (re.search of 8 consecutive digits, then datetime.strptime "%Y%m%d"),
  - list_rrg_gifs_sorted itself (partition into dated/dateless, two stable
    descending sorts, concatenation),
  - get_latest_csv_file (fold with a strict-greater running maximum
    initialized to 0.0),
  - the key-column check and the inner join performed in main via pd.merge,
  - the per-frame normalization pipeline of read_gif_frames.

Filesystem state is passed explicitly: a directory listing is a list of
FileEntry (name and modification time); modification times are modelled as
rationals (floats that are not NaN are ordered like rationals).  Decoded
raw frames are passed to read_gif_frames as an explicit optional list
(none models imageio.mimread raising).  Pixel samples are modelled by Px:
a finite rational, the IEEE specials nan, inf and ninf, or undef for values
whose production numpy documents as undefined (casting NaN / out-of-range
floats to uint8).
-/

/-! ## Characters, filenames, extensions -/

/-- ASCII lower-casing of one character, as applied by str.lower() to the
ASCII filenames handled here. -/
def lcChar (c : Char) : Char :=
  if 'A' ≤ c ∧ c ≤ 'Z' then Char.ofNat (c.toNat + 32) else c

/-- Models name.lower().endswith(ext) for an ASCII extension. -/
def endsWithLower (ext : List Char) (s : String) : Bool :=
  let l := s.data.map lcChar
  decide (ext.length ≤ l.length) && decide (l.drop (l.length - ext.length) = ext)

def hasGifExt (s : String) : Bool := endsWithLower ".gif".data s

def hasCsvExt (s : String) : Bool := endsWithLower ".csv".data s

/-- Lexicographic comparison of character lists by code point; this is how
Python compares strings. -/
def lexLt : List Char → List Char → Bool
  | [], [] => false
  | [], _ :: _ => true
  | _ :: _, [] => false
  | a :: s, b :: t => if a < b then true else if b < a then false else lexLt s t

/-! ## Date-token extraction

re.compile(r"(\d{8})").search(f) finds the leftmost position at which 8
consecutive digits start and returns those 8 characters.  tokenAt s i is
the match attempt at position i; searchDigits8 scans positions left to
right. -/

def tokenAt (s : List Char) (i : Nat) : Option (List Char) :=
  let w := (s.drop i).take 8
  if (w.length == 8) && w.all Char.isDigit then some w else none

def searchDigits8 : List Char → Option (List Char)
  | [] => none
  | c :: t =>
    match tokenAt (c :: t) 0 with
    | some w => some w
    | none => searchDigits8 t

/-- Lengths of the maximal runs of consecutive digits in a string
(accumulator carries the length of the current run). -/
def digitRunsAux : List Char → Nat → List Nat
  | [], acc => if acc = 0 then [] else [acc]
  | c :: t, acc =>
    if c.isDigit then digitRunsAux t (acc + 1)
    else if acc = 0 then digitRunsAux t 0
    else acc :: digitRunsAux t 0

def digitRunLengths (s : List Char) : List Nat := digitRunsAux s 0

/-! ## Calendar dates and strptime -/

structure Date where
  year : Nat
  month : Nat
  day : Nat
deriving DecidableEq

def isLeap (y : Nat) : Bool := (y % 4 == 0 && y % 100 != 0) || (y % 400 == 0)

def daysInMonth (y m : Nat) : Nat :=
  if m = 2 then (if isLeap y then 29 else 28)
  else if m = 4 ∨ m = 6 ∨ m = 9 ∨ m = 11 then 30
  else 31

def digitVal (c : Char) : Nat := c.toNat - '0'.toNat

def natOfDigits (l : List Char) : Nat := l.foldl (fun n c => 10 * n + digitVal c) 0

/-- Models datetime.strptime(token, "%Y%m%d") applied to a token of exactly
8 digits, as extracted by searchDigits8.  In CPython, %Y matches exactly 4
digits; %m matches 2 digits only when they form 01..12 (otherwise it falls
back to a single nonzero digit) and %d matches 2 digits only when they form
01..31; any 1-digit fallback leaves trailing digits unconverted, which
strptime rejects with ValueError.  Hence on an 8-digit token the only
accepted split is 4+2+2 with month 01..12 and day 01..31, after which the
datetime constructor validates the day against the month length (leap years
included) and requires year >= 1.  Failure in app.py is caught by the
surrounding except and maps to None, i.e. none here. -/
def strptimeYmd8 (t : List Char) : Option Date :=
  if (t.length == 8) && t.all Char.isDigit then
    let y := natOfDigits (t.take 4)
    let m := natOfDigits ((t.drop 4).take 2)
    let d := natOfDigits (t.drop 6)
    if 1 ≤ y ∧ 1 ≤ m ∧ m ≤ 12 ∧ 1 ≤ d ∧ d ≤ daysInMonth y m then some ⟨y, m, d⟩
    else none
  else none

/-- Date parsed from a filename: first 8-digit token, if any, run through
strptime; None both when no token exists and when strptime rejects it
(app.py lines 64-73). -/
def parsedDate (name : String) : Option Date :=
  (searchDigits8 name.data).bind strptimeYmd8

/-- Numeric sort key of a date, order-isomorphic to datetime comparison for
month <= 12 and day <= 31. -/
def dateKey (d : Date) : Nat := d.year * 10000 + d.month * 100 + d.day

/-! ## Directory listings and stable descending sort -/

/-- One file seen by a directory scan: its name and its modification time.
getmtime returns a float; any non-NaN float is ordered like a rational. -/
structure FileEntry where
  name : String
  mtime : ℚ
deriving DecidableEq

/-- Insert a into a list, before the first element whose key is less than
or equal to key a.  Used by sortDesc. -/
def insertDesc {α K : Type} [LinearOrder K] (key : α → K) (a : α) : List α → List α
  | [] => [a]
  | b :: t => if key b ≤ key a then a :: b :: t else b :: insertDesc key a t

/-- Stable descending sort by a key, modelling Python's
list.sort(key=key, reverse=True): elements are ordered by key descending
and elements with equal keys keep their input order.  Python uses a stable
sort (timsort); any stable sort by the same key computes the same list, so
a stable insertion sort is used here. -/
def sortDesc {α K : Type} [LinearOrder K] (key : α → K) : List α → List α
  | [] => []
  | a :: t => insertDesc key a (sortDesc key t)

/-! ## list_rrg_gifs_sorted (app.py lines 45-86) -/

/-- The .gif entries of a listing (case-insensitive extension test). -/
def gifFiles (files : List FileEntry) : List FileEntry :=
  files.filter (fun e => hasGifExt e.name)

/-- The single pass of app.py lines 64-73 that collects (filename, parsed)
for files whose first 8-digit token parses; order of the listing is kept. -/
def withDate (files : List FileEntry) : List (String × Date) :=
  (gifFiles files).filterMap (fun e => (parsedDate e.name).map (fun d => (e.name, d)))

/-- The same pass's complement: files with no token or an unparsable token. -/
def withoutDate (files : List FileEntry) : List FileEntry :=
  (gifFiles files).filter (fun e => (parsedDate e.name).isNone)

/-- with_date.sort(key=lambda x: x[1], reverse=True). -/
def datedSorted (files : List FileEntry) : List (String × Date) :=
  sortDesc (fun p => dateKey p.2) (withDate files)

/-- without_date.sort(key=mtime, reverse=True).  The mtime of each entry is
the one captured by the scan; the os.path.exists fallback of line 80 does
not fire in a consistent snapshot. -/
def datelessSorted (files : List FileEntry) : List FileEntry :=
  sortDesc FileEntry.mtime (withoutDate files)

/-- Return value of list_rrg_gifs_sorted: dated entries (with their parsed
date), then dateless entries (with None).  The early returns of lines 53-58
coincide with this formula on an empty listing. -/
def list_rrg_gifs_sorted (files : List FileEntry) : List (String × Option Date) :=
  (datedSorted files).map (fun p => (p.1, some p.2))
  ++ (datelessSorted files).map (fun e => (e.name, (none : Option Date)))

/-! ## get_latest_csv_file (app.py lines 17-35) -/

def csvFiles (files : List FileEntry) : List FileEntry :=
  files.filter (fun e => hasCsvExt e.name)

/-- Loop body of lines 26-34: a file is taken only when its mtime strictly
exceeds the running maximum. -/
def latestStep (acc : Option String × ℚ) (e : FileEntry) : Option String × ℚ :=
  if acc.2 < e.mtime then (some e.name, e.mtime) else acc

/-- get_latest_csv_file: (None, None) when no .csv file exists, otherwise
the fold of latestStep from (None, 0.0); note the second component is the
float 0.0 (not None) when every mtime is <= 0. -/
def get_latest_csv_file (files : List FileEntry) : Option String × Option ℚ :=
  if csvFiles files = [] then (none, none)
  else (((csvFiles files).foldl latestStep (none, 0)).1,
        some (((csvFiles files).foldl latestStep (none, 0)).2))

/-- Fold of max over the mtimes, started at m0. -/
def maxFrom (m0 : ℚ) (l : List FileEntry) : ℚ :=
  l.foldl (fun m e => max m e.mtime) m0

/-- Largest of 0 and the mtimes of a listing (the loop's running maximum
starts at 0.0). -/
def maxKey (l : List FileEntry) : ℚ := maxFrom 0 l

/-! ## Snapshots and reconciliation (app.py lines 207-238)

A loaded CSV is a header (column names) plus rows of scalar values; scalar
equality is the exact equality pd.merge joins on.  The key-column
precondition check of lines 211-217 and the inner join of lines 220-222 are
extracted here as one function; the join's row multiset is the standard
cross product of key-equal row pairs, which is what pd.merge(how="inner")
produces.  Result column naming (suffixes) is not modelled: no claim
depends on it. -/

structure Snapshot where
  cols : List String
  rows : List (List String)
deriving DecidableEq

def keyIdx (s : Snapshot) (key : String) : Nat :=
  s.cols.findIdx (fun c => decide (c = key))

def keyOf (s : Snapshot) (key : String) (row : List String) : String :=
  row.getD (keyIdx s key) ""

inductive RecError where
  | MissingKeyColumn
deriving DecidableEq

structure RecResult where
  pairs : List (List String × List String)
deriving DecidableEq

def reconcile (left right : Snapshot) (key : String) : Except RecError RecResult :=
  if key ∈ left.cols ∧ key ∈ right.cols then
    Except.ok ⟨(left.rows.map (fun lr =>
      (right.rows.filter (fun rr => decide (keyOf right key rr = keyOf left key lr))).map
        (fun rr => (lr, rr)))).flatten⟩
  else Except.error RecError.MissingKeyColumn

def matchedCount (r : Except RecError RecResult) : Option Nat :=
  match r with
  | Except.ok res => some res.pairs.length
  | Except.error _ => none

/-! ## Frame normalization (read_gif_frames, app.py lines 89-116) -/

/-- A pixel sample: a finite value, an IEEE special produced by float
arithmetic, or undef for results numpy documents as undefined (casting NaN,
infinities or out-of-range floats to uint8). -/
inductive Px where
  | fin (q : ℚ)
  | nan
  | inf
  | ninf
  | undef
deriving DecidableEq

/-- A raw frame as returned by imageio.mimread: a 2-d (grayscale) or 3-d
(channels-last) array, with a flag telling whether its dtype is uint8. -/
inductive RawFrame where
  | gray (data : List (List Px)) (u8 : Bool)
  | multi (channels : Nat) (data : List (List (List Px))) (u8 : Bool)
deriving DecidableEq

/-- A frame after normalization: channel count, H x W x C data, dtype flag. -/
structure Arr3 where
  channels : Nat
  data : List (List (List Px))
  u8 : Bool
deriving DecidableEq

/-- np.stack([arr] * 3, axis=2) on a 2-d array. -/
def stack3 (m : List (List Px)) : List (List (List Px)) :=
  m.map (fun r => r.map (fun v => [v, v, v]))

/-- arr[:, :, :3] on a 4-channel array. -/
def dropAlpha (m : List (List (List Px))) : List (List (List Px)) :=
  m.map (fun r => r.map (fun pix => pix.take 3))

def pxVals (m : List (List (List Px))) : List Px := m.flatten.flatten

/-- Maximum of the finite values of a list, none if there are none.
np.nanmax ignores NaNs and returns NaN when every value is NaN. -/
def finMax : List Px → Option ℚ
  | [] => none
  | p :: t =>
    match p, finMax t with
    | Px.fin q, some m => some (max q m)
    | Px.fin q, none => some q
    | _, r => r

def nanmaxPx (m : List (List (List Px))) : Px :=
  match finMax (pxVals m) with
  | some q => Px.fin q
  | none => Px.nan

/-- IEEE-754 division on the Px carrier: x/0 is NaN for x = 0 and a signed
infinity otherwise; NaN propagates. -/
def ieeeDiv (a b : Px) : Px :=
  match a, b with
  | Px.undef, _ => Px.undef
  | _, Px.undef => Px.undef
  | Px.nan, _ => Px.nan
  | _, Px.nan => Px.nan
  | Px.fin x, Px.fin y =>
    if y = 0 then (if x = 0 then Px.nan else if 0 < x then Px.inf else Px.ninf)
    else Px.fin (x / y)
  | Px.fin _, Px.inf => Px.fin 0
  | Px.fin _, Px.ninf => Px.fin 0
  | Px.inf, Px.fin y => if 0 ≤ y then Px.inf else Px.ninf
  | Px.ninf, Px.fin y => if 0 ≤ y then Px.ninf else Px.inf
  | Px.inf, _ => Px.nan
  | Px.ninf, _ => Px.nan

def mul255 : Px → Px
  | Px.fin q => Px.fin (255 * q)
  | Px.nan => Px.nan
  | Px.inf => Px.inf
  | Px.ninf => Px.ninf
  | Px.undef => Px.undef

/-- Truncation toward zero of a rational in (-1, 256). -/
def truncQ (q : ℚ) : Nat := q.floor.toNat

/-- float64 -> uint8 cast (np.ndarray.astype): defined (truncation toward
zero) for values in (-1, 256); undefined for NaN, infinities and
out-of-range values. -/
def u8cast : Px → Px
  | Px.fin q => if -1 < q ∧ q < 256 then Px.fin (truncQ q) else Px.undef
  | _ => Px.undef

/-- The dtype branch of lines 109-114:
255 * (arr.astype(float) / np.nanmax(arr)) cast to uint8.  numpy division
by zero and NaN casts emit warnings, not exceptions, so the except branch
(direct astype) is reached only when np.nanmax raises, i.e. on a zero-size
array. -/
def rescaleData (m : List (List (List Px))) : List (List (List Px)) :=
  if (pxVals m).isEmpty then
    m.map (fun r => r.map (fun pix => pix.map u8cast))
  else
    m.map (fun r => r.map (fun pix =>
      pix.map (fun v => u8cast (mul255 (ieeeDiv v (nanmaxPx m))))))

/-- Step 1 of the pipeline (lines 102-104): a 2-d frame is stacked into 3
identical channels; a 3-d frame is kept. -/
def toArr3 : RawFrame → Arr3
  | RawFrame.gray m b => ⟨3, stack3 m, b⟩
  | RawFrame.multi c m b => ⟨c, m, b⟩

/-- Per-frame normalization of lines 100-115: grayscale stacking, alpha
dropping for 4-channel frames, then dtype conversion when not uint8. -/
def normalizeFrame (fr : RawFrame) : Arr3 :=
  let a := toArr3 fr
  let a2 := if a.channels = 4 then Arr3.mk 3 (dropAlpha a.data) a.u8 else a
  if a2.u8 then a2 else Arr3.mk a2.channels (rescaleData a2.data) true

/-- read_gif_frames: empty list when imageio.mimread raises (decoded =
none), otherwise each raw frame normalized in order. -/
def read_gif_frames (decoded : Option (List RawFrame)) : List Arr3 :=
  match decoded with
  | none => []
  | some raws => raws.map normalizeFrame

/-! ## Statement of claim C1 as written (for its refutation) -/

def pairwiseAll {α : Type} (r : α → α → Bool) : List α → Bool
  | [] => true
  | a :: t => t.all (r a) && pairwiseAll r t

/-- Entry a may precede entry b under the claimed name tie-break only when
b's name is lexicographically smaller. -/
def nameDescB (a b : String) : Bool := lexLt b.data a.data

def dateKeyOpt : Option Date → Nat
  | some d => dateKey d
  | none => 0

def mtimeOf (files : List FileEntry) (n : String) : ℚ :=
  ((files.filter (fun e => decide (e.name = n))).map FileEntry.mtime).headD 0

/-- Claim C1 as stated: within each partition of the output, any two
entries are ordered by strictly descending sort key, or have equal keys and
are ordered by filename descending. -/
def c1ClaimHolds (files : List FileEntry) : Bool :=
  let out := list_rrg_gifs_sorted files
  let dated := out.filter (fun p => p.2.isSome)
  let dateless := out.filter (fun p => p.2.isNone)
  pairwiseAll (fun a b =>
    decide (dateKeyOpt b.2 < dateKeyOpt a.2)
    || (decide (dateKeyOpt a.2 = dateKeyOpt b.2) && nameDescB a.1 b.1)) dated
  && pairwiseAll (fun a b =>
    decide (mtimeOf files b.1 < mtimeOf files a.1)
    || (decide (mtimeOf files a.1 = mtimeOf files b.1) && nameDescB a.1 b.1)) dateless

/-! ## Generic facts about the stable descending insertion sort -/

theorem mem_insertDesc {α K : Type} [LinearOrder K] (key : α → K) (a x : α)
    (l : List α) : x ∈ insertDesc key a l ↔ x = a ∨ x ∈ l := by
  induction l with
  | nil => simp [insertDesc]
  | cons b t ih =>
    simp only [insertDesc]
    by_cases h : key b ≤ key a
    · simp [h, List.mem_cons]
    · simp [h, List.mem_cons, ih]
      tauto

theorem sorted_insertDesc {α K : Type} [LinearOrder K] (key : α → K) (a : α)
    (l : List α) (h : List.Pairwise (fun x y => key y ≤ key x) l) :
    List.Pairwise (fun x y => key y ≤ key x) (insertDesc key a l) := by
  induction l with
  | nil => simp [insertDesc]
  | cons b t ih =>
    rw [List.pairwise_cons] at h
    obtain ⟨hb, ht⟩ := h
    simp only [insertDesc]
    by_cases hba : key b ≤ key a
    · rw [if_pos hba]
      refine List.Pairwise.cons ?_ (List.Pairwise.cons hb ht)
      intro y hy
      rcases List.mem_cons.mp hy with rfl | hyt
      · exact hba
      · exact le_trans (hb y hyt) hba
    · rw [if_neg hba]
      refine List.Pairwise.cons ?_ (ih ht)
      intro y hy
      rcases (mem_insertDesc key a y t).mp hy with rfl | hyt
      · exact le_of_lt (lt_of_not_le hba)
      · exact hb y hyt

theorem sorted_sortDesc {α K : Type} [LinearOrder K] (key : α → K) (l : List α) :
    List.Pairwise (fun x y => key y ≤ key x) (sortDesc key l) := by
  induction l with
  | nil => exact List.Pairwise.nil
  | cons a t ih => exact sorted_insertDesc key a _ ih

theorem mem_sortDesc {α K : Type} [LinearOrder K] (key : α → K) (l : List α)
    (x : α) : x ∈ sortDesc key l ↔ x ∈ l := by
  induction l with
  | nil => simp [sortDesc]
  | cons a t ih => simp [sortDesc, mem_insertDesc, ih, List.mem_cons]

theorem filter_insertDesc {α K : Type} [LinearOrder K] (key : α → K) (a : α)
    (l : List α) (k : K) :
    (insertDesc key a l).filter (fun x => decide (key x = k)) =
      if key a = k then a :: l.filter (fun x => decide (key x = k))
      else l.filter (fun x => decide (key x = k)) := by
  induction l with
  | nil =>
    by_cases h : key a = k <;> simp [insertDesc, List.filter, h]
  | cons b t ih =>
    simp only [insertDesc]
    by_cases hba : key b ≤ key a
    · rw [if_pos hba]
      by_cases ha : key a = k
      · simp [List.filter_cons, ha]
      · simp [List.filter_cons, ha]
    · rw [if_neg hba]
      by_cases ha : key a = k
      · have hbk : ¬ (key b = k) := by
          intro hbk
          exact hba (le_of_eq (hbk.trans ha.symm))
        simp [List.filter_cons, hbk, ih, ha]
      · by_cases hbk : key b = k <;> simp [List.filter_cons, hbk, ih, ha]

theorem filter_sortDesc {α K : Type} [LinearOrder K] (key : α → K) (l : List α)
    (k : K) :
    (sortDesc key l).filter (fun x => decide (key x = k)) =
      l.filter (fun x => decide (key x = k)) := by
  induction l with
  | nil => rfl
  | cons a t ih =>
    simp only [sortDesc, filter_insertDesc, ih]
    by_cases ha : key a = k <;> simp [List.filter_cons, ha]

/-! ## Claim C1 -/

/-- Claim C1 (counterexample): for the listing containing
a_20240101.gif and b_20240101.gif in that order, both carrying the same
encoded date, the output keeps them in listing order (a before b), which is
filename ascending, not the claimed filename descending; so the claimed
tie-break does not hold of list_rrg_gifs_sorted. -/
theorem c1_name_tiebreak_fails :
    c1ClaimHolds [⟨"a_20240101.gif", 0⟩, ⟨"b_20240101.gif", 0⟩] = false := by
  decide

/-- Claim C1 (amended): the output is the dated partition followed by the
dateless partition; within each partition entries are sorted descending by
the partition's sort key (parsed date, mtime), and entries with equal sort
keys keep their relative order from the directory enumeration (the sorts
are stable) instead of being reordered by name. -/
theorem c1_partitions_sorted_stable (files : List FileEntry) :
    list_rrg_gifs_sorted files =
      (datedSorted files).map (fun p => (p.1, some p.2))
      ++ (datelessSorted files).map (fun e => (e.name, (none : Option Date))) ∧
    List.Pairwise (fun a b => dateKey b.2 ≤ dateKey a.2) (datedSorted files) ∧
    List.Pairwise (fun a b => b.mtime ≤ a.mtime) (datelessSorted files) ∧
    (∀ k : Nat, (datedSorted files).filter (fun p => decide (dateKey p.2 = k)) =
      (withDate files).filter (fun p => decide (dateKey p.2 = k))) ∧
    (∀ q : ℚ, (datelessSorted files).filter (fun e => decide (e.mtime = q)) =
      (withoutDate files).filter (fun e => decide (e.mtime = q))) := by
  refine ⟨rfl, sorted_sortDesc _ _, sorted_sortDesc _ _,
    fun k => filter_sortDesc _ _ k, fun q => filter_sortDesc _ _ q⟩

/-! ## Claim C5 -/

/-- Claim C5 (counterexample): x123456789.gif contains a single maximal
digit run, of length 9 (not 8), yet extraction still returns a token,
namely the first 8 digits of that run; so a maximal run of length other
than 8 does not imply the absence of a token. -/
theorem c5_long_run_still_matches :
    digitRunLengths "x123456789.gif".data = [9] ∧
    searchDigits8 "x123456789.gif".data = some "12345678".data := by
  decide

theorem tokenAt_cons_succ (c : Char) (s : List Char) (i : Nat) :
    tokenAt (c :: s) (i + 1) = tokenAt s i := by
  simp [tokenAt, List.drop_succ_cons]

/-- Claim C5 (amended): extraction returns some token t exactly when t is
the 8-character all-digit window at the leftmost position admitting one: a
digit run shorter than 8 contributes no window, a run of length 8 or more
contributes its first 8 digits, and of several windows the leftmost wins. -/
theorem searchDigits8_leftmost_window (s t : List Char) :
    searchDigits8 s = some t ↔
      ∃ i, tokenAt s i = some t ∧ ∀ j, j < i → tokenAt s j = none := by
  induction s with
  | nil =>
    constructor
    · intro h
      exact absurd h (by simp [searchDigits8])
    · rintro ⟨i, hi, _⟩
      exact absurd hi (by simp [tokenAt])
  | cons c s ih =>
    constructor
    · intro h
      cases h0 : tokenAt (c :: s) 0 with
      | some w =>
        simp only [searchDigits8, h0] at h
        refine ⟨0, ?_, fun j hj => absurd hj (Nat.not_lt_zero j)⟩
        rw [h0, h]
      | none =>
        simp only [searchDigits8, h0] at h
        rcases ih.mp h with ⟨i, hi, hlt⟩
        refine ⟨i + 1, by rw [tokenAt_cons_succ]; exact hi, ?_⟩
        intro j hj
        cases j with
        | zero => exact h0
        | succ j0 =>
          rw [tokenAt_cons_succ]
          exact hlt j0 (Nat.lt_of_succ_lt_succ hj)
    · rintro ⟨i, hi, hlt⟩
      cases i with
      | zero =>
        simp only [searchDigits8, hi]
      | succ i0 =>
        have h0 : tokenAt (c :: s) 0 = none := hlt 0 (Nat.succ_pos i0)
        simp only [searchDigits8, h0]
        refine ih.mpr ⟨i0, ?_, ?_⟩
        · rw [← tokenAt_cons_succ c s i0]
          exact hi
        · intro j hj
          have hs := hlt (j + 1) (Nat.succ_lt_succ hj)
          rw [tokenAt_cons_succ] at hs
          exact hs

/-! ## Claim C2 -/

theorem append_sep_index {α : Type} (A B : List α) (p : α → Prop)
    (hA : ∀ x ∈ A, p x) (hB : ∀ x ∈ B, ¬ p x) (i j : Nat)
    (hi : i < (A ++ B).length) (hj : j < (A ++ B).length)
    (hpi : p ((A ++ B).get ⟨i, hi⟩)) (hpj : ¬ p ((A ++ B).get ⟨j, hj⟩)) :
    i < j := by
  rw [List.get_eq_getElem] at hpi hpj
  have hiA : i < A.length := by
    by_contra hge
    push_neg at hge
    rw [List.getElem_append_right hge] at hpi
    exact hB _ (List.getElem_mem _) hpi
  have hjA : A.length ≤ j := by
    by_contra hlt
    push_neg at hlt
    rw [List.getElem_append_left hlt] at hpj
    exact hpj (hA _ (List.getElem_mem _))
  omega

/-- Claim C2: in the output of list_rrg_gifs_sorted, every entry carrying a
parsed date sits at a strictly smaller index than every entry carrying
none, for every input listing, hence regardless of modification times. -/
theorem dated_entries_precede_dateless (files : List FileEntry) (i j : Nat)
    (hi : i < (list_rrg_gifs_sorted files).length)
    (hj : j < (list_rrg_gifs_sorted files).length)
    (hd : ((list_rrg_gifs_sorted files).get ⟨i, hi⟩).2.isSome = true)
    (hn : ((list_rrg_gifs_sorted files).get ⟨j, hj⟩).2 = none) : i < j := by
  have hA : ∀ x ∈ (datedSorted files).map (fun p => (p.1, some p.2)),
      x.2.isSome = true := by
    intro x hx
    rcases List.mem_map.mp hx with ⟨p, hp, rfl⟩
    rfl
  have hB : ∀ x ∈ (datelessSorted files).map
      (fun e => (e.name, (none : Option Date))), ¬ x.2.isSome = true := by
    intro x hx
    rcases List.mem_map.mp hx with ⟨e, he, rfl⟩
    simp
  have hn2 : ¬ ((list_rrg_gifs_sorted files).get ⟨j, hj⟩).2.isSome = true := by
    rw [hn]
    simp
  exact append_sep_index _ _ (fun x => x.2.isSome = true) hA hB i j hi hj hd hn2

/-- Claim C2 (witness): for a listing where the dateless file is the most
recently modified, the dated entry still sits strictly before it. -/
theorem dated_entries_precede_dateless_witness : (0 : Nat) < 1 :=
  dated_entries_precede_dateless [⟨"c.gif", 100⟩, ⟨"a_20240101.gif", 0⟩]
    0 1 (by decide) (by decide) (by decide) (by decide)

/-! ## Claim C6 -/

/-- Claim C6: a gif filename whose first 8-digit token is rejected by
strptime gets parsed date none and lands in the dateless partition of the
output, exactly like a filename with no token: it appears paired with none
and never paired with a date. -/
theorem invalid_token_treated_dateless (files : List FileEntry)
    (e : FileEntry) (t : List Char) (he : e ∈ files)
    (hg : hasGifExt e.name = true) (ht : searchDigits8 e.name.data = some t)
    (hp : strptimeYmd8 t = none) :
    parsedDate e.name = none ∧
    (e.name, (none : Option Date)) ∈ list_rrg_gifs_sorted files ∧
    ∀ d : Date, (e.name, some d) ∉ list_rrg_gifs_sorted files := by
  have hpd : parsedDate e.name = none := by
    unfold parsedDate
    rw [ht]
    exact hp
  refine ⟨hpd, ?_, ?_⟩
  · have hgf : e ∈ gifFiles files := List.mem_filter.mpr ⟨he, hg⟩
    have hwo : e ∈ withoutDate files := by
      refine List.mem_filter.mpr ⟨hgf, ?_⟩
      rw [hpd]
      rfl
    have hs : e ∈ datelessSorted files := (mem_sortDesc _ _ _).mpr hwo
    refine List.mem_append.mpr (Or.inr ?_)
    exact List.mem_map.mpr ⟨e, hs, rfl⟩
  · intro d hd
    rcases List.mem_append.mp hd with hL | hR
    · rcases List.mem_map.mp hL with ⟨p, hps, hpe⟩
      have hpw : p ∈ withDate files := (mem_sortDesc _ _ _).mp hps
      rcases List.mem_filterMap.mp hpw with ⟨a, ha, hfa⟩
      rcases Option.map_eq_some'.mp hfa with ⟨d0, hd0, had⟩
      rw [← had] at hpe
      simp only [Prod.mk.injEq] at hpe
      obtain ⟨h1, h2⟩ := hpe
      rw [h1, hpd] at hd0
      exact Option.noConfusion hd0
    · rcases List.mem_map.mp hR with ⟨a, ha, hae⟩
      injection hae with h1 h2
      exact Option.noConfusion h2

/-- Claim C6 (witness): report_20251399.gif has the token 20251399
(month 13), strptime rejects it, and the file appears in the output with
parsed date none. -/
theorem invalid_token_treated_dateless_witness :
    parsedDate "report_20251399.gif" = none ∧
    ("report_20251399.gif", (none : Option Date)) ∈
      list_rrg_gifs_sorted [⟨"report_20251399.gif", 5⟩] :=
  have h := invalid_token_treated_dateless [⟨"report_20251399.gif", 5⟩]
    ⟨"report_20251399.gif", 5⟩ "20251399".data
    (by decide) (by decide) (by decide) (by decide)
  ⟨h.1, h.2.1⟩

/-! ## Claim C3 -/

/-- A raw 1 x 1 RGB frame of a non-uint8 dtype whose pixel values are all
zero. -/
def zeroFloatFrame : RawFrame :=
  RawFrame.multi 3 [[[Px.fin 0, Px.fin 0, Px.fin 0]]] false

/-- Claim C3 (code evaluation at the failing input): the dtype branch has
no guard on a zero maximum; on an all-zero non-uint8 frame it computes
255 * (0 / 0) = NaN for every pixel and then casts NaN to uint8, a cast
numpy documents as undefined, so the result is not the guaranteed all-zero
frame the claim describes (rescaling is not skipped). -/
theorem zero_max_division_not_skipped :
    normalizeFrame zeroFloatFrame = Arr3.mk 3 [[[Px.undef, Px.undef, Px.undef]]] true ∧
    ieeeDiv (Px.fin 0) (Px.fin 0) = Px.nan ∧
    u8cast (mul255 Px.nan) = Px.undef := by
  decide

/-! ## Claim C9 -/

/-- Claim C9: a single raw frame that is already 3-channel uint8 passes
through the pipeline unchanged, and decoding it yields exactly that one
frame with identical pixel values. -/
theorem rgb_u8_frame_unchanged (m : List (List (List Px))) :
    normalizeFrame (RawFrame.multi 3 m true) = Arr3.mk 3 m true ∧
    read_gif_frames (some [RawFrame.multi 3 m true]) = [Arr3.mk 3 m true] := by
  constructor
  · simp [normalizeFrame, toArr3]
  · simp [read_gif_frames, normalizeFrame, toArr3]

/-! ## Claim C4 -/

/-- Claim C4: when the key column is missing from either snapshot,
reconciliation reports MissingKeyColumn and never returns a join result,
zero-match or otherwise (app.py lines 211-217 guard lines 219-238). -/
theorem reconcile_missing_key (l r : Snapshot) (key : String)
    (h : key ∉ l.cols ∨ key ∉ r.cols) :
    reconcile l r key = Except.error RecError.MissingKeyColumn ∧
    ∀ res : RecResult, reconcile l r key ≠ Except.ok res := by
  have hcond : ¬ (key ∈ l.cols ∧ key ∈ r.cols) := by tauto
  have h1 : reconcile l r key = Except.error RecError.MissingKeyColumn := by
    unfold reconcile
    rw [if_neg hcond]
  refine ⟨h1, ?_⟩
  intro res hres
  rw [h1] at hres
  exact Except.noConfusion hres

/-- Claim C4 (witness): the right snapshot lacks the symbol column, so
reconciliation reports the missing key. -/
theorem reconcile_missing_key_witness :
    reconcile ⟨["symbol"], [["AAPL"]]⟩ ⟨["name"], [["x"]]⟩ "symbol" =
      Except.error RecError.MissingKeyColumn :=
  (reconcile_missing_key ⟨["symbol"], [["AAPL"]]⟩ ⟨["name"], [["x"]]⟩ "symbol"
    (by decide)).1

/-! ## Claim C7 -/

theorem countP_eq_one_of_nodup_mem {β : Type} [DecidableEq β] (L : List β)
    (k : β) (hnd : L.Nodup) (hm : k ∈ L) :
    L.countP (fun v => decide (v = k)) = 1 := by
  induction L with
  | nil => cases hm
  | cons a t ih =>
    rw [List.nodup_cons] at hnd
    rcases List.mem_cons.mp hm with rfl | hmt
    · rw [List.countP_cons]
      have hz : t.countP (fun v => decide (v = k)) = 0 := by
        rw [List.countP_eq_zero]
        intro x hx
        simp only [decide_eq_true_eq]
        intro hxa
        rw [hxa] at hx
        exact hnd.1 hx
      simp [hz]
    · have hne : ¬ (a = k) := fun hh => hnd.1 (hh ▸ hmt)
      rw [List.countP_cons]
      simp [hne, ih hnd.2 hmt]

theorem sum_map_one {β : Type} (l : List β) :
    (l.map (fun _ => (1 : Nat))).sum = l.length := by
  induction l with
  | nil => rfl
  | cons a t ih =>
    simp only [List.map_cons, List.sum_cons, List.length_cons, ih]
    omega

/-- Claim C7: the inner join counts the full cross product of key-equal row
pairs; in particular, reconciling a snapshot with itself on a key column
whose values are pairwise distinct yields exactly one matched row per input
row. -/
theorem reconcile_join_counts (l r A : Snapshot) (key : String)
    (hl : key ∈ l.cols) (hr : key ∈ r.cols) (hA : key ∈ A.cols)
    (hnd : (A.rows.map (keyOf A key)).Nodup) :
    matchedCount (reconcile A A key) = some A.rows.length ∧
    matchedCount (reconcile l r key) =
      some ((l.rows.map (fun lr =>
        (r.rows.filter (fun rr =>
          decide (keyOf r key rr = keyOf l key lr))).length)).sum) := by
  have general : ∀ x y : Snapshot, key ∈ x.cols → key ∈ y.cols →
      matchedCount (reconcile x y key) =
        some ((x.rows.map (fun lr =>
          (y.rows.filter (fun rr =>
            decide (keyOf y key rr = keyOf x key lr))).length)).sum) := by
    intro x y hx hy
    unfold reconcile
    rw [if_pos ⟨hx, hy⟩]
    simp only [matchedCount, List.length_flatten, List.map_map, Option.some.injEq]
    refine congrArg List.sum ?_
    apply List.map_congr_left
    intro lr hlr
    simp [Function.comp, List.length_map]
  constructor
  · rw [general A A hA hA]
    have each : ∀ lr ∈ A.rows,
        (A.rows.filter (fun rr =>
          decide (keyOf A key rr = keyOf A key lr))).length = 1 := by
      intro lr hlr
      have hone := countP_eq_one_of_nodup_mem (A.rows.map (keyOf A key))
        (keyOf A key lr) hnd (List.mem_map.mpr ⟨lr, hlr, rfl⟩)
      rw [List.countP_map] at hone
      rw [← List.countP_eq_length_filter]
      simpa [Function.comp] using hone
    rw [List.map_congr_left each, sum_map_one]
  · exact general l r hl hr

def snapA : Snapshot := ⟨["symbol", "score"], [["AAPL", "5"], ["MSFT", "7"]]⟩

def snapB : Snapshot := ⟨["symbol", "score"], [["MSFT", "9"], ["GOOG", "3"]]⟩

/-- Claim C7 (witness): snapA has two distinct symbol values; the self-join
has exactly 2 matched rows, and the snapA-snapB join count obeys the
cross-product formula. -/
theorem reconcile_join_counts_witness :
    matchedCount (reconcile snapA snapA "symbol") = some snapA.rows.length ∧
    matchedCount (reconcile snapA snapB "symbol") =
      some ((snapA.rows.map (fun lr =>
        (snapB.rows.filter (fun rr =>
          decide (keyOf snapB "symbol" rr = keyOf snapA "symbol" lr))).length)).sum) :=
  reconcile_join_counts snapA snapB snapA "symbol" (by decide) (by decide)
    (by decide) (by decide)

/-! ## Claim C8 -/

/-- Shapes a decoded GIF raw frame can take: 2-d grayscale, or 3-d with 3
(red/green/blue) or 4 (with transparency) channels. -/
def rawShapeOk : RawFrame → Bool
  | RawFrame.gray _ _ => true
  | RawFrame.multi c _ _ => decide (c = 3) || decide (c = 4)

/-- Claim C8: every frame produced by read_gif_frames from raw frames of
the shapes GIF decoding yields has exactly 3 channels and uint8 samples:
grayscale frames are replicated to 3 channels, 4-channel frames lose the
alpha channel, and non-uint8 frames are cast. -/
theorem frames_rgb_u8 (raws : List RawFrame)
    (hok : ∀ fr ∈ raws, rawShapeOk fr = true) :
    ∀ g ∈ read_gif_frames (some raws), g.channels = 3 ∧ g.u8 = true := by
  intro g hg
  simp only [read_gif_frames] at hg
  rcases List.mem_map.mp hg with ⟨fr, hfr, rfl⟩
  have hs := hok fr hfr
  cases fr with
  | gray m b =>
    cases b <;> simp [normalizeFrame, toArr3]
  | multi c m b =>
    simp only [rawShapeOk, Bool.or_eq_true, decide_eq_true_eq] at hs
    rcases hs with rfl | rfl <;> cases b <;> simp [normalizeFrame, toArr3]

/-- Claim C8 (witness): a grayscale uint8 raw frame decodes to a 3-channel
uint8 frame. -/
theorem frames_rgb_u8_witness :
    (Arr3.mk 3 [[[Px.fin 7, Px.fin 7, Px.fin 7]]] true).channels = 3 ∧
    (Arr3.mk 3 [[[Px.fin 7, Px.fin 7, Px.fin 7]]] true).u8 = true :=
  frames_rgb_u8 [RawFrame.gray [[Px.fin 7]] true] (by decide)
    (Arr3.mk 3 [[[Px.fin 7, Px.fin 7, Px.fin 7]]] true) (by decide)

/-! ## Claim C10 -/

theorem le_maxFrom (m0 : ℚ) (l : List FileEntry) : m0 ≤ maxFrom m0 l := by
  induction l generalizing m0 with
  | nil => exact le_refl m0
  | cons e t ih =>
    exact le_trans (le_max_left m0 e.mtime) (ih (max m0 e.mtime))

/-- Characterization of the selection loop of get_latest_csv_file, for an
arbitrary initial accumulator: the final time is the running maximum, and a
name is picked only when some mtime strictly exceeds the initial maximum,
in which case the first entry attaining the maximum wins. -/
theorem foldl_latestStep (l : List FileEntry) (f0 : Option String) (m0 : ℚ) :
    l.foldl latestStep (f0, m0) =
      if m0 < maxFrom m0 l then
        (((l.find? (fun e => decide (e.mtime = maxFrom m0 l))).map FileEntry.name),
          maxFrom m0 l)
      else (f0, m0) := by
  induction l generalizing f0 m0 with
  | nil =>
    simp [maxFrom]
  | cons e t ih =>
    have hM : maxFrom m0 (e :: t) = maxFrom (max m0 e.mtime) t := rfl
    rw [List.foldl_cons, hM]
    by_cases he : m0 < e.mtime
    · have hstep : latestStep (f0, m0) e = (some e.name, e.mtime) := by
        simp [latestStep, he]
      have hmx : max m0 e.mtime = e.mtime := max_eq_right (le_of_lt he)
      rw [hstep, ih, hmx]
      have heM : e.mtime ≤ maxFrom e.mtime t := le_maxFrom _ _
      by_cases h2 : e.mtime < maxFrom e.mtime t
      · rw [if_pos h2, if_pos (lt_trans he h2)]
        have hne : ¬ (e.mtime = maxFrom e.mtime t) := ne_of_lt h2
        rw [List.find?_cons_of_neg _ (by simpa using hne)]
      · have heq : e.mtime = maxFrom e.mtime t := le_antisymm heM (not_lt.mp h2)
        rw [if_neg h2, if_pos (heq ▸ he)]
        rw [List.find?_cons_of_pos _ (by simpa using heq)]
        rw [← heq]
        rfl
    · have hstep : latestStep (f0, m0) e = (f0, m0) := by
        simp [latestStep, he]
      have hmx : max m0 e.mtime = m0 := max_eq_left (not_lt.mp he)
      rw [hstep, ih, hmx]
      by_cases h2 : m0 < maxFrom m0 t
      · rw [if_pos h2, if_pos h2]
        have hne : ¬ (e.mtime = maxFrom m0 t) := by
          intro hh
          rw [← hh] at h2
          exact he h2
        rw [List.find?_cons_of_neg _ (by simpa using hne)]
      · rw [if_neg h2, if_neg h2]

/-- Claim C10: with at least one .csv entry, the returned time is the
maximum of 0 and the mtimes (the running maximum starts at 0.0 and updates
only on strict increase), and the returned name is the first enumerated
entry attaining that maximum when it is positive, and None when every
mtime is at most 0, even though the directory is non-empty. -/
theorem get_latest_csv_characterization (files : List FileEntry)
    (hne : csvFiles files ≠ []) :
    get_latest_csv_file files =
      (if 0 < maxKey (csvFiles files) then
        ((csvFiles files).find? (fun e =>
          decide (e.mtime = maxKey (csvFiles files)))).map FileEntry.name
       else none,
       some (maxKey (csvFiles files))) := by
  unfold get_latest_csv_file maxKey
  rw [if_neg hne, foldl_latestStep]
  by_cases h : (0:ℚ) < maxFrom 0 (csvFiles files)
  · rw [if_pos h, if_pos h]
  · rw [if_neg h, if_neg h]
    have h0 : maxFrom 0 (csvFiles files) = 0 :=
      le_antisymm (not_lt.mp h) (le_maxFrom 0 _)
    rw [h0]

/-- Claim C10 (witness): two .csv entries share the maximal mtime 5; the
first enumerated one is returned. -/
theorem get_latest_csv_characterization_witness :
    get_latest_csv_file [⟨"a.txt", 99⟩, ⟨"b.csv", 5⟩, ⟨"c.csv", 5⟩] =
      (if 0 < maxKey (csvFiles [⟨"a.txt", 99⟩, ⟨"b.csv", 5⟩, ⟨"c.csv", 5⟩]) then
        ((csvFiles [⟨"a.txt", 99⟩, ⟨"b.csv", 5⟩, ⟨"c.csv", 5⟩]).find? (fun e =>
          decide (e.mtime =
            maxKey (csvFiles [⟨"a.txt", 99⟩, ⟨"b.csv", 5⟩, ⟨"c.csv", 5⟩])))).map
          FileEntry.name
       else none,
       some (maxKey (csvFiles [⟨"a.txt", 99⟩, ⟨"b.csv", 5⟩, ⟨"c.csv", 5⟩]))) :=
  get_latest_csv_characterization [⟨"a.txt", 99⟩, ⟨"b.csv", 5⟩, ⟨"c.csv", 5⟩]
    (by decide)
